import Mathlib

/-
Verification of the imovirtual incremental-load pipeline.

The development shallowly embeds the transform / dedup / load core of the
repository:

* a JSON-like value model for the raw scraped documents,
* the nested-field extractors `get_nested_value`
  (listings_gcs_daily_incremental_load/transforms_core.py) and `safe_get`
  (gcs_daily_incremental_load/gcs_with_prefect_v2.py, local helper inside
  `process_data`),
* the string-array normalizer `process_list_for_array_string`
  (transforms_core.py) together with the Python `json.dumps` / `str`
  serializations it calls,
* the canonical-record projection of `process_single_listing_row`
  (transforms_core.py) and the fixed column layout of `process_data`
  (gcs_api.py / gcs_with_prefect_v2.py),
* the dedup-then-append sequence `check_existing_keys_in_bigquery`,
  `filter_out_duplicates`, `load_to_bigquery` (gcs_api.py), with the
  BigQuery sink abstracted to the multiset of its key tuples,
* the no-source-found branches of the three pipeline entry points.
-/

/-- A Python/JSON-like value: null, booleans, integers, strings, arrays and
string-keyed objects, mirroring the documents the pipeline transforms. -/
inductive JValue where
  | null : JValue
  | b (v : Bool) : JValue
  | n (v : Int) : JValue
  | s (v : String) : JValue
  | arr (items : List JValue) : JValue
  | obj (fields : List (String × JValue)) : JValue

/-- Boolean test mirroring the Python `item is None` check. -/
def JValue.isNull : JValue → Bool
  | .null => true
  | _ => false

/-- Boolean test mirroring the Python `isinstance(x, dict)` check. -/
def JValue.isObj : JValue → Bool
  | .obj _ => true
  | _ => false

/-- Boolean test mirroring the Python `isinstance(x, list)` check. -/
def JValue.isArr : JValue → Bool
  | .arr _ => true
  | _ => false

/-- A path segment: a string key or an integer index, as the extraction
paths in the source mix both (e.g. `['category', 'name', 0, 'value']`). -/
inductive Seg where
  | key (s : String) : Seg
  | idx (n : Nat) : Seg
deriving DecidableEq, Repr

/-- Field lookup on an object: mirrors `key in current` followed by
`current[key]` on a Python dict with string keys.  An integer segment is
never a member of a string-keyed dict, so it yields `none`. -/
def lookupField (fields : List (String × JValue)) : Seg → Option JValue
  | .key s => (fields.find? (fun p => p.1 == s)).map (fun p => p.2)
  | .idx _ => none

/-- Mirrors the Python `temp.get(key)` on a dict: an absent key gives
`None`, which the value model renders as `JValue.null`. -/
def dictGet (fields : List (String × JValue)) (k : Seg) : JValue :=
  (lookupField fields k).getD JValue.null

/-- The loop body of `get_nested_value` (transforms_core.py, lines 29-39):
at each step the walk requires the current value to be a dict containing the
segment; a null value at the last segment returns `None`, a null value
earlier returns the default, and any other failure returns the default. -/
def gnvLoop (current : JValue) (keys : List Seg) (default : JValue) : JValue :=
  match keys with
  | [] => current
  | k :: rest =>
    match current with
    | .obj fields =>
      match lookupField fields k with
      | some value =>
        if value.isNull then
          if rest.isEmpty then JValue.null else default
        else gnvLoop value rest default
      | none => default
    | _ => default

/-- `get_nested_value(data_dict, keys, default)` from transforms_core.py:
returns `default` outright when the document is not a dict, otherwise walks
the path with `gnvLoop`. -/
def get_nested_value (data : JValue) (keys : List Seg) (default : JValue) : JValue :=
  match data with
  | .obj _ => gnvLoop data keys default
  | _ => default

/-- The loop body of `safe_get` (gcs_with_prefect_v2.py, lines 199-205):
each step replaces the cursor by `temp.get(key)` when the cursor is a dict
and returns the default otherwise; at the end a `None` cursor is replaced
by the default. -/
def sgLoop (temp : JValue) (keys : List Seg) (default : JValue) : JValue :=
  match keys with
  | [] => if temp.isNull then default else temp
  | k :: rest =>
    match temp with
    | .obj fields => sgLoop (dictGet fields k) rest default
    | _ => default

/-- `safe_get(data, keys, default)` from `process_data` in
gcs_with_prefect_v2.py: returns `default` when the document is not a dict,
otherwise walks the path with `sgLoop`. -/
def safe_get (data : JValue) (keys : List Seg) (default : JValue) : JValue :=
  match data with
  | .obj _ => sgLoop data keys default
  | _ => default

/-- Once the `safe_get` cursor has degenerated to `None`, the result is the
default whatever path remains. -/
theorem sgLoop_null (keys : List Seg) (default : JValue) :
    sgLoop JValue.null keys default = default := by
  cases keys <;> simp [sgLoop, JValue.isNull]

/-- Walking `get_nested_value` and `safe_get` agree step by step except in
one situation: when the walk ends on a present final segment whose value is
null, `get_nested_value` returns null while `safe_get` returns the default. -/
theorem gnvLoop_vs_sgLoop (keys : List Seg) (current : JValue) (default : JValue) :
    gnvLoop current keys default = sgLoop current keys default ∨
      (gnvLoop current keys default = JValue.null ∧
        sgLoop current keys default = default) := by
  induction keys generalizing current with
  | nil =>
    cases h : current.isNull
    · exact Or.inl (by simp [gnvLoop, sgLoop, h])
    · refine Or.inr ⟨?_, by simp [sgLoop, h]⟩
      cases current <;> simp_all [gnvLoop, JValue.isNull]
  | cons k rest ih =>
    cases current with
    | obj fields =>
      cases hv : lookupField fields k with
      | none =>
        refine Or.inl ?_
        simp [gnvLoop, sgLoop, hv, dictGet, sgLoop_null]
      | some value =>
        cases hn : value.isNull
        · have := ih value
          simpa [gnvLoop, sgLoop, hv, hn, dictGet] using this
        · have hvnull : value = JValue.null := by
            cases value <;> simp_all [JValue.isNull]
          subst hvnull
          cases hre : rest.isEmpty
          · refine Or.inl ?_
            have : rest ≠ [] := by
              cases rest <;> simp_all [List.isEmpty]
            simp [gnvLoop, sgLoop, hv, hre, dictGet, sgLoop_null, JValue.isNull]
          · refine Or.inr ?_
            have : rest = [] := by
              cases rest <;> simp_all [List.isEmpty]
            subst this
            simp [gnvLoop, sgLoop, hv, dictGet, sgLoop_null, JValue.isNull]
    | null => exact Or.inl (by simp [gnvLoop, sgLoop])
    | b v => exact Or.inl (by simp [gnvLoop, sgLoop])
    | n v => exact Or.inl (by simp [gnvLoop, sgLoop])
    | s v => exact Or.inl (by simp [gnvLoop, sgLoop])
    | arr items => exact Or.inl (by simp [gnvLoop, sgLoop])

/-- Lookup of a segment in an arbitrary value: the segment is present
exactly when the value is a dict containing it (the Python membership test
`isinstance(current, dict) and key in current`). -/
def segLookup : JValue → Seg → Option JValue
  | .obj fields, k => lookupField fields k
  | _, _ => none

/-- C4. The nested field extractor is total (it is a Lean function, so it
can never raise), and whenever the walk meets a value that is not a dict
— in particular any list, for which no segment is considered present — or a
dict lacking the next segment, the result is the supplied default.  The same
failure cases yield the default for the `safe_get` variant as well. -/
theorem extractor_default_on_malformed
    (data current : JValue) (keys : List Seg) (k : Seg) (rest : List Seg)
    (default : JValue)
    (hdata : data.isObj = false)
    (hstep : current.isObj = false ∨ segLookup current k = none) :
    get_nested_value data keys default = default ∧
    safe_get data keys default = default ∧
    gnvLoop current (k :: rest) default = default ∧
    sgLoop current (k :: rest) default = default := by
  refine ⟨?_, ?_, ?_, ?_⟩
  · cases data <;> simp_all [get_nested_value, JValue.isObj]
  · cases data <;> simp_all [safe_get, JValue.isObj]
  · rcases hstep with h | h
    · cases current <;> simp_all [gnvLoop, JValue.isObj]
    · cases current <;> simp_all [gnvLoop, segLookup]
  · rcases hstep with h | h
    · cases current <;> simp_all [sgLoop, JValue.isObj]
    · cases current <;> simp_all [sgLoop, segLookup, dictGet, sgLoop_null]

/-- Witness for `extractor_default_on_malformed`: a numeric document and a
dict cursor missing the requested segment both resolve to the default. -/
theorem extractor_default_on_malformed_witness :
    get_nested_value (JValue.n 7) [Seg.key "x"] (JValue.s "D") = JValue.s "D" ∧
    safe_get (JValue.n 7) [Seg.key "x"] (JValue.s "D") = JValue.s "D" ∧
    gnvLoop (JValue.obj [("a", JValue.n 1)]) [Seg.key "b"] (JValue.s "D") = JValue.s "D" ∧
    sgLoop (JValue.obj [("a", JValue.n 1)]) [Seg.key "b"] (JValue.s "D") = JValue.s "D" := by
  have h := extractor_default_on_malformed (JValue.n 7)
    (JValue.obj [("a", JValue.n 1)]) [Seg.key "x"] (Seg.key "b") []
    (JValue.s "D") rfl (Or.inr rfl)
  exact ⟨h.1, h.2.1, h.2.2.1, h.2.2.2⟩

/-- Concrete document for comparing the two extractor variants: the final
path segment is present but carries a null value. -/
def c10doc : JValue := JValue.obj [("a", JValue.null)]

/-- C10 counterexample. On a document whose final path segment is present
with a null value and with a non-null default, `get_nested_value` returns
null while `safe_get` returns the default, so the two variants are not
extensionally equal. -/
theorem extractor_variants_differ :
    get_nested_value c10doc [Seg.key "a"] (JValue.s "X") = JValue.null ∧
    safe_get c10doc [Seg.key "a"] (JValue.s "X") = JValue.s "X" ∧
    get_nested_value c10doc [Seg.key "a"] (JValue.s "X") ≠
      safe_get c10doc [Seg.key "a"] (JValue.s "X") := by
  refine ⟨rfl, rfl, fun h => ?_⟩
  exact absurd (congrArg JValue.isNull h) (by decide)

/-- C10 amended. The two extractor variants agree on every document, path
and default, except that where the walk ends on a present final segment
whose value is null `get_nested_value` returns null and `safe_get` returns
the default; in particular they agree whenever the default is null. -/
theorem extractor_variants_agree_or_null
    (data : JValue) (keys : List Seg) (default : JValue) :
    get_nested_value data keys default = safe_get data keys default ∨
      (get_nested_value data keys default = JValue.null ∧
        safe_get data keys default = default) := by
  cases data with
  | obj fields => simpa [get_nested_value, safe_get] using
      gnvLoop_vs_sgLoop keys (JValue.obj fields) default
  | null => exact Or.inl rfl
  | b v => exact Or.inl rfl
  | n v => exact Or.inl rfl
  | s v => exact Or.inl rfl
  | arr items => exact Or.inl rfl

/-- Escape of a single character in a JSON string literal, as performed by
`json.dumps` (with `ensure_ascii=False` other characters pass through). -/
def jsonEscapeChar (c : Char) : String :=
  if c = '"' then "\\\""
  else if c = '\\' then "\\\\"
  else if c = '\n' then "\\n"
  else if c = '\t' then "\\t"
  else if c = '\r' then "\\r"
  else String.singleton c

/-- Escape of a JSON string literal body. -/
def jsonEscape (str : String) : String :=
  String.join (str.toList.map jsonEscapeChar)

mutual
/-- Serialization mirroring Python `json.dumps(value, ensure_ascii=False)`
with the default separators: items joined by a comma and a space, keys
followed by a colon and a space. -/
def jsonDumps : JValue → String
  | .null => "null"
  | .b true => "true"
  | .b false => "false"
  | .n v => toString v
  | .s v => "\"" ++ jsonEscape v ++ "\""
  | .arr items => "[" ++ jsonDumpsList items ++ "]"
  | .obj fields => "\x7b" ++ jsonDumpsFields fields ++ "\x7d"

/-- Comma-and-space separated serialization of array items. -/
def jsonDumpsList : List JValue → String
  | [] => ""
  | [v] => jsonDumps v
  | v :: rest => jsonDumps v ++ ", " ++ jsonDumpsList rest

/-- Comma-and-space separated serialization of object entries. -/
def jsonDumpsFields : List (String × JValue) → String
  | [] => ""
  | [(k, v)] => "\"" ++ jsonEscape k ++ "\": " ++ jsonDumps v
  | (k, v) :: rest =>
      "\"" ++ jsonEscape k ++ "\": " ++ jsonDumps v ++ ", " ++ jsonDumpsFields rest
end

/-- The single-quote character used by the Python repr of strings, written
by code point to keep the source free of quote literals. -/
def pyQuote : String := String.singleton (Char.ofNat 39)

mutual
/-- The Python `repr` of a value in this model: None / True / False by
name, numbers by their decimal form, strings single-quoted, lists and dicts
recursively with comma-and-space separators. -/
def pyRepr : JValue → String
  | .null => "None"
  | .b true => "True"
  | .b false => "False"
  | .n v => toString v
  | .s v => pyQuote ++ v ++ pyQuote
  | .arr items => "[" ++ pyReprList items ++ "]"
  | .obj fields => "\x7b" ++ pyReprFields fields ++ "\x7d"

/-- Comma-and-space separated repr of list items. -/
def pyReprList : List JValue → String
  | [] => ""
  | [v] => pyRepr v
  | v :: rest => pyRepr v ++ ", " ++ pyReprList rest

/-- Comma-and-space separated repr of dict entries. -/
def pyReprFields : List (String × JValue) → String
  | [] => ""
  | [(k, v)] => pyQuote ++ k ++ pyQuote ++ ": " ++ pyRepr v
  | (k, v) :: rest =>
      pyQuote ++ k ++ pyQuote ++ ": " ++ pyRepr v ++ ", " ++ pyReprFields rest
end

/-- The Python `str` of a value: a string is itself, everything else is its
repr. -/
def pyStr (v : JValue) : String :=
  match v with
  | .s str => str
  | other => pyRepr other

/-- Normalization of one item of a raw list field, mirroring the loop body
of `process_list_for_array_string` (transforms_core.py, lines 163-177): a
string passes through, a dict is serialized with `json.dumps` (its
`TypeError` fallback to `str` cannot fire on values of this model, which are
all JSON-serializable), `None` becomes the empty string, and any other item
is stringified with `str`. -/
def normalizeArrayItem (item : JValue) : String :=
  match item with
  | .s str => str
  | .obj fields => jsonDumps (.obj fields)
  | .null => ""
  | other => pyStr other

/-- The append loop of `process_list_for_array_string`: items are processed
independently, in order. -/
def plfasItems : List JValue → List String
  | [] => []
  | item :: rest => normalizeArrayItem item :: plfasItems rest

/-- `process_list_for_array_string(data_list, field_name)` from
`extract_passthrough_features` (transforms_core.py, lines 156-177): any
value that is not a list yields the empty list, a list has each item
normalized in place.  The `field_name` argument only feeds commented-out
debug prints and is omitted. -/
def process_list_for_array_string (data_list : JValue) : List String :=
  match data_list with
  | .arr items => plfasItems items
  | _ => []

/-- C6 counterexample.  A scalar raw value yields the empty list, not a
single-element list containing it, and a dict raw value also yields the
empty list rather than a serialized string: the non-list branch returns
`[]` unconditionally. -/
theorem non_list_coercion_counterexample :
    process_list_for_array_string (JValue.n 5) = [] ∧
    process_list_for_array_string (JValue.n 5) ≠ ["5"] ∧
    process_list_for_array_string (JValue.obj [("b", JValue.n 1)]) = [] := by
  refine ⟨rfl, fun h => ?_, rfl⟩
  simp [process_list_for_array_string] at h

/-- C6 amended.  For every raw value of a string-array target field that is
not a list — dict, scalar or null alike — the coercion converts it to the
empty list. -/
theorem non_list_coercion_empty (v : JValue) (h : v.isArr = false) :
    process_list_for_array_string v = [] := by
  cases v <;> simp_all [process_list_for_array_string, JValue.isArr]

/-- Witness for `non_list_coercion_empty` at a scalar input. -/
theorem non_list_coercion_empty_witness :
    (JValue.n 5).isArr = false ∧ process_list_for_array_string (JValue.n 5) = [] :=
  ⟨rfl, non_list_coercion_empty (JValue.n 5) rfl⟩

/-- The item loop is exactly an order-preserving map of the item
normalizer. -/
theorem plfasItems_eq_map (items : List JValue) :
    plfasItems items = items.map normalizeArrayItem := by
  induction items with
  | nil => rfl
  | cons i rest ih => simp [plfasItems, ih]

/-- C7.  Heterogeneous-list normalization is total, deterministic and
order-preserving: on a list it is precisely the in-place map of the item
normalizer, and the sample list of a string, a dict, a null and a number
normalizes to the expected four strings with positions preserved. -/
theorem heterogeneous_list_normalization :
    (∀ items : List JValue,
      process_list_for_array_string (JValue.arr items)
        = items.map normalizeArrayItem) ∧
    process_list_for_array_string
        (JValue.arr [JValue.s "a", JValue.obj [("b", JValue.n 1)],
          JValue.null, JValue.n 3])
      = ["a", "\x7b\"b\": 1\x7d", "", "3"] := by
  refine ⟨fun items => plfasItems_eq_map items, ?_⟩
  rfl

/-- A pandas `ingestionDate` cell: either a plain `datetime.date` (a day
number) or a timestamp carrying a time of day.  `hasattr(x, 'date')`
distinguishes the two in `filter_out_duplicates`. -/
inductive PdDate where
  | dateOnly (day : Nat) : PdDate
  | timestamp (day : Nat) (tod : Nat) : PdDate
deriving DecidableEq, Repr

/-- Truncation of an `ingestionDate` cell to a `datetime.date`, as done by
`.date()` on a timestamp (and by `pd.to_datetime(...).dt.date` when staging
the lookup table). -/
def PdDate.toDate : PdDate → Nat
  | .dateOnly d => d
  | .timestamp d _ => d

/-- A transformed batch row restricted to the columns the deduplicator
reads: the `slug` and the `ingestionDate`. -/
structure BatchRow where
  slug : String
  ingestionDate : PdDate
deriving DecidableEq, Repr

/-- An idempotency key as stored in BigQuery: a slug and a DATE. -/
abbrev BqKey := String × Nat

/-- The normalized key tuple of a batch row: its slug together with its
ingestion date truncated to a date. -/
def normKey (r : BatchRow) : BqKey := (r.slug, r.ingestionDate.toDate)

/-- Pandas `drop_duplicates`: keeps the first occurrence of each value. -/
def dropDupFirstGo [DecidableEq α] (seen : List α) : List α → List α
  | [] => []
  | a :: rest =>
    if a ∈ seen then dropDupFirstGo seen rest
    else a :: dropDupFirstGo (a :: seen) rest

/-- Pandas `drop_duplicates` over a whole column of values. -/
def dropDupFirst [DecidableEq α] (l : List α) : List α :=
  dropDupFirstGo [] l

theorem mem_dropDupFirstGo [DecidableEq α] (a : α) (seen l : List α) :
    a ∈ dropDupFirstGo seen l ↔ a ∈ l ∧ a ∉ seen := by
  induction l generalizing seen with
  | nil => simp [dropDupFirstGo]
  | cons b rest ih =>
    by_cases hb : b ∈ seen
    · rw [dropDupFirstGo, if_pos hb, ih]
      constructor
      · rintro ⟨h1, h2⟩; exact ⟨List.mem_cons_of_mem b h1, h2⟩
      · rintro ⟨h1, h2⟩
        rcases List.mem_cons.mp h1 with h1 | h1
        · exact absurd (h1 ▸ hb) h2
        · exact ⟨h1, h2⟩
    · rw [dropDupFirstGo, if_neg hb]
      constructor
      · intro h
        rcases List.mem_cons.mp h with h | h
        · subst h; exact ⟨List.mem_cons_self a rest, hb⟩
        · rcases (ih (b :: seen)).mp h with ⟨h1, h2⟩
          exact ⟨List.mem_cons_of_mem b h1, fun hc => h2 (List.mem_cons_of_mem b hc)⟩
      · rintro ⟨h1, h2⟩
        rcases List.mem_cons.mp h1 with h1 | h1
        · subst h1; exact List.mem_cons_self a _
        · by_cases hab : a = b
          · subst hab; exact List.mem_cons_self a _
          · exact List.mem_cons_of_mem b ((ih (b :: seen)).mpr
              ⟨h1, fun hc => (List.mem_cons.mp hc).elim hab h2⟩)

theorem mem_dropDupFirst [DecidableEq α] (a : α) (l : List α) :
    a ∈ dropDupFirst l ↔ a ∈ l := by
  rw [dropDupFirst, mem_dropDupFirstGo]; simp

theorem dropDupFirst_eq_nil [DecidableEq α] (l : List α) :
    dropDupFirst l = [] ↔ l = [] := by
  cases l with
  | nil => simp [dropDupFirst, dropDupFirstGo]
  | cons a rest => simp [dropDupFirst, dropDupFirstGo]

/-- `check_existing_keys_in_bigquery(df)` (gcs_api.py, lines 387-494),
with the destination table abstracted to the list of the key tuples of its
rows.  The batch's `(slug, ingestionDate)` pairs are deduplicated, the date
is truncated while staging the temporary lookup relation, and the inner
join returns one `(t.slug, t.ingestionDate)` row for every pair of a
destination row and a staged key that agree on the full key tuple. -/
def check_existing_keys_in_bigquery
    (df : List BatchRow) (sink : List BqKey) : List BqKey :=
  let key_pairs := dropDupFirst (df.map (fun r => (r.slug, r.ingestionDate)))
  if key_pairs.isEmpty then []
  else
    let staged := key_pairs.map (fun p => (p.1, p.2.toDate))
    sink.flatMap (fun t => (staged.filter (fun l => l == t)).map (fun _ => t))

/-- `filter_out_duplicates(df, existing_keys)` (gcs_api.py, lines 496-538):
with no existing keys the batch passes through unchanged; otherwise a row is
kept exactly when its slug paired with its date-truncated ingestion date is
not a member of the existing-key set. -/
def filter_out_duplicates
    (df : List BatchRow) (existing_keys : List BqKey) : List BatchRow :=
  if existing_keys.isEmpty then df
  else df.filter (fun r => !(existing_keys.contains (normKey r)))

/-- `load_to_bigquery(df)` (gcs_api.py, lines 342-385) restricted to its
effect on the key tuples of the destination: a pure append under
WRITE_APPEND. -/
def load_to_bigquery (sink : List BqKey) (df : List BatchRow) : List BqKey :=
  sink ++ df.map normKey

/-- One run of the dedup-then-append sequence: check existing keys, filter
them out, append-load the remainder. -/
def runOnce (df : List BatchRow) (sink : List BqKey) : List BqKey :=
  load_to_bigquery sink
    (filter_out_duplicates df (check_existing_keys_in_bigquery df sink))

/-- Membership in the existing-keys result: a key is returned exactly when
it is the normalized key of some batch row and is present in the sink. -/
theorem mem_check_existing_keys
    (df : List BatchRow) (sink : List BqKey) (k : BqKey) :
    k ∈ check_existing_keys_in_bigquery df sink ↔
      k ∈ df.map normKey ∧ k ∈ sink := by
  by_cases hdf : df = []
  · subst hdf
    simp [check_existing_keys_in_bigquery, dropDupFirst, dropDupFirstGo]
  · have hE : (dropDupFirst (df.map (fun r => (r.slug, r.ingestionDate)))).isEmpty = false := by
      cases hE2 : (dropDupFirst (df.map (fun r => (r.slug, r.ingestionDate)))).isEmpty
      · rfl
      · rw [List.isEmpty_iff, dropDupFirst_eq_nil, List.map_eq_nil_iff] at hE2
        exact absurd hE2 hdf
    rw [check_existing_keys_in_bigquery]
    simp only [hE, Bool.false_eq_true, if_false, List.mem_flatMap, List.mem_map,
      List.mem_filter]
    constructor
    · rintro ⟨t, ht, x, ⟨⟨p, hp, hpx⟩, hxt⟩, rfl⟩
      rcases List.mem_map.mp ((mem_dropDupFirst _ _).mp hp) with ⟨r, hr, hrp⟩
      have hxk : x = t := by simpa using hxt
      subst hxk
      refine ⟨⟨r, hr, ?_⟩, ht⟩
      rw [← hpx, ← hrp]; rfl
    · rintro ⟨⟨r, hr, hrk⟩, hks⟩
      refine ⟨k, hks, k, ⟨⟨(r.slug, r.ingestionDate), ?_, hrk⟩, by simp⟩, rfl⟩
      exact (mem_dropDupFirst _ _).mpr (List.mem_map.mpr ⟨r, hr, rfl⟩)

/-- Membership in the filtered batch: a row survives exactly when its
normalized key is not among the existing keys. -/
theorem mem_filter_out_duplicates
    (df : List BatchRow) (existing_keys : List BqKey) (r : BatchRow) :
    r ∈ filter_out_duplicates df existing_keys ↔
      r ∈ df ∧ normKey r ∉ existing_keys := by
  rw [filter_out_duplicates]
  cases hE : existing_keys.isEmpty
  · rw [List.isEmpty_eq_false] at hE
    simp only [Bool.false_eq_true, if_false, List.mem_filter, Bool.not_eq_true',
      ← Bool.not_eq_true]
    constructor
    · rintro ⟨h1, h2⟩
      exact ⟨h1, fun hc => h2 (List.elem_iff.mpr hc)⟩
    · rintro ⟨h1, h2⟩
      exact ⟨h1, fun hc => h2 (List.elem_iff.mp hc)⟩
  · rw [List.isEmpty_iff] at hE
    subst hE; simp

/-- After one dedup-then-append run, the key of every batch row is present
in the destination: it either was there already or has just been loaded. -/
theorem normKey_mem_runOnce (df : List BatchRow) (sink : List BqKey)
    (r : BatchRow) (hr : r ∈ df) : normKey r ∈ runOnce df sink := by
  rw [runOnce, load_to_bigquery]
  by_cases hs : normKey r ∈ sink
  · exact List.mem_append_left _ hs
  · refine List.mem_append_right _ (List.mem_map.mpr ⟨r, ?_, rfl⟩)
    rw [mem_filter_out_duplicates]
    exact ⟨hr, fun hc => hs ((mem_check_existing_keys df sink (normKey r)).mp hc).2⟩

/-- The empty batch is left empty by the duplicate filter. -/
theorem filter_out_duplicates_nil (ks : List BqKey) :
    filter_out_duplicates [] ks = [] := by
  rw [filter_out_duplicates]
  split <;> simp

/-- Running the dedup-then-append sequence a second time over the same
batch against the resulting sink filters the whole batch away: the second
run loads zero rows. -/
theorem second_run_loads_zero (df : List BatchRow) (sink : List BqKey) :
    filter_out_duplicates df
      (check_existing_keys_in_bigquery df (runOnce df sink)) = [] := by
  by_cases hdf : df = []
  · subst hdf; exact filter_out_duplicates_nil _
  · have hall : ∀ r ∈ df,
        normKey r ∈ check_existing_keys_in_bigquery df (runOnce df sink) := by
      intro r hr
      exact (mem_check_existing_keys _ _ _).mpr
        ⟨List.mem_map.mpr ⟨r, hr, rfl⟩, normKey_mem_runOnce df sink r hr⟩
    rcases List.exists_mem_of_ne_nil df hdf with ⟨r0, hr0⟩
    have hE : (check_existing_keys_in_bigquery df (runOnce df sink)).isEmpty = false := by
      rw [List.isEmpty_eq_false]
      exact List.ne_nil_of_mem (hall r0 hr0)
    rw [filter_out_duplicates]
    simp only [hE, Bool.false_eq_true, if_false]
    rw [List.filter_eq_nil_iff]
    intro r hr hcon
    have h1 : (check_existing_keys_in_bigquery df (runOnce df sink)).contains
        (normKey r) = true := List.elem_iff.mpr (hall r hr)
    rw [Bool.not_eq_true'] at hcon
    rw [hcon] at h1
    exact Bool.noConfusion h1

/-- Filtering a batch with a predicate that keeps every row carrying a
given key leaves the number of occurrences of that key unchanged. -/
theorem count_map_filter_keep (l : List BatchRow) (p : BatchRow → Bool) (k : BqKey)
    (h : ∀ r ∈ l, normKey r = k → p r = true) :
    ((l.filter p).map normKey).count k = (l.map normKey).count k := by
  induction l with
  | nil => rfl
  | cons a rest ih =>
    have hrest : ∀ r ∈ rest, normKey r = k → p r = true :=
      fun r hr => h r (List.mem_cons_of_mem a hr)
    by_cases hka : normKey a = k
    · have hpa : p a = true := h a (List.mem_cons_self a rest) hka
      simp [List.filter_cons, hpa, hka, ih hrest, List.count_cons]
    · cases hpa : p a
      · simp [List.filter_cons, hpa, ih hrest, List.count_cons, hka]
      · simp [List.filter_cons, hpa, ih hrest, List.count_cons, hka]

/-- A key present in a duplicate-free list occurs in it exactly once. -/
theorem count_eq_one_of_nodup_mem {l : List BqKey} {a : BqKey}
    (hn : l.Nodup) (ha : a ∈ l) : l.count a = 1 := by
  induction l with
  | nil => cases ha
  | cons b rest ih =>
    rcases List.mem_cons.mp ha with h | h
    · subst h
      rw [List.count_cons_self, List.count_eq_zero.mpr (List.nodup_cons.mp hn).1]
    · have hne : a ≠ b := by
        rintro rfl; exact (List.nodup_cons.mp hn).1 h
      rw [List.count_cons_of_ne hne, ih (List.nodup_cons.mp hn).2 h]

/-- C1 amended.  The second run of the dedup-then-append sequence over the
same batch always loads zero rows; and provided the batch carries pairwise
distinct normalized keys and the initial destination holds a given batch
key at most once, the resulting destination holds that key exactly once.
(Without those provisos the sequence does not deduplicate inside a batch,
see the counterexample.) -/
theorem idempotent_rerun_amended (df : List BatchRow) (sink : List BqKey) (k : BqKey)
    (hnodup : (df.map normKey).Nodup)
    (hsink : sink.count k ≤ 1)
    (hk : k ∈ df.map normKey) :
    filter_out_duplicates df
        (check_existing_keys_in_bigquery df (runOnce df sink)) = [] ∧
      (runOnce df sink).count k = 1 := by
  refine ⟨second_run_loads_zero df sink, ?_⟩
  rw [runOnce, load_to_bigquery, List.count_append]
  have hdf1 : (df.map normKey).count k = 1 := count_eq_one_of_nodup_mem hnodup hk
  by_cases hs : k ∈ sink
  · have hpos : sink.count k ≠ 0 := fun h => (List.count_eq_zero.mp h) hs
    have h1 : sink.count k = 1 := by omega
    have h0 : ((filter_out_duplicates df
        (check_existing_keys_in_bigquery df sink)).map normKey).count k = 0 := by
      rw [List.count_eq_zero]
      intro hcmem
      rcases List.mem_map.mp hcmem with ⟨r, hrmem, hrk⟩
      rw [mem_filter_out_duplicates] at hrmem
      refine hrmem.2 ?_
      rw [hrk]
      exact (mem_check_existing_keys df sink k).mpr ⟨hk, hs⟩
    rw [h1, h0]
  · have h0 : sink.count k = 0 := List.count_eq_zero.mpr hs
    have h1 : ((filter_out_duplicates df
        (check_existing_keys_in_bigquery df sink)).map normKey).count k = 1 := by
      rw [filter_out_duplicates]
      cases hE : (check_existing_keys_in_bigquery df sink).isEmpty
      · simp only [Bool.false_eq_true, if_false]
        rw [count_map_filter_keep df _ k ?hkeep, hdf1]
        case hkeep =>
          intro r hr hrk
          rw [Bool.not_eq_true']
          cases hcon : (check_existing_keys_in_bigquery df sink).contains (normKey r)
          · rfl
          · exfalso
            have hmem : normKey r ∈ check_existing_keys_in_bigquery df sink :=
              List.elem_iff.mp hcon
            rw [hrk] at hmem
            exact hs ((mem_check_existing_keys df sink k).mp hmem).2
      · simp only [if_true, hdf1]
    rw [h0, h1]

/-- Witness for `idempotent_rerun_amended`: a one-row batch loaded into an
empty destination ends with its key present exactly once and a second run
loading nothing. -/
theorem idempotent_rerun_amended_witness :
    filter_out_duplicates [BatchRow.mk "flat-x" (PdDate.dateOnly 1)]
        (check_existing_keys_in_bigquery [BatchRow.mk "flat-x" (PdDate.dateOnly 1)]
          (runOnce [BatchRow.mk "flat-x" (PdDate.dateOnly 1)] [])) = [] ∧
      (runOnce [BatchRow.mk "flat-x" (PdDate.dateOnly 1)] []).count ("flat-x", 1) = 1 :=
  idempotent_rerun_amended [BatchRow.mk "flat-x" (PdDate.dateOnly 1)] [] ("flat-x", 1)
    (by decide) (by decide) (by decide)

/-- A batch carrying the same key twice. -/
def dupBatch : List BatchRow :=
  [BatchRow.mk "flat-x" (PdDate.dateOnly 1), BatchRow.mk "flat-x" (PdDate.dateOnly 1)]

/-- C1 counterexample.  On a batch containing two rows with the same key
and an empty destination, the dedup-then-append sequence loads both rows,
so after the (zero-loading) second run the destination holds the key twice,
not exactly once: within-batch duplicates are not removed. -/
theorem idempotent_rerun_counterexample :
    (runOnce dupBatch (runOnce dupBatch [])).count ("flat-x", 1) = 2 ∧
      (runOnce dupBatch (runOnce dupBatch [])).count ("flat-x", 1) ≠ 1 := by
  refine ⟨by decide, by decide⟩

/-- The 35 destination columns of the listings table, in the declaration
order of `bq_schema_keys` in `process_single_listing_row`
(transforms_core.py, lines 240-246). -/
def bq_schema_keys : List String :=
  ["id", "title", "url", "description_text", "advert_type",
   "advertiser_type_detail", "status", "created_at", "modified_at",
   "property_type", "transaction_type", "price", "price_currency",
   "price_period", "area_m2", "typology", "bedrooms", "energy_certificate",
   "bathrooms", "address_city", "address_county", "address_district",
   "latitude", "longitude", "contact_name", "contact_phone", "image_urls",
   "other_features", "features", "featuresByCategory",
   "featuresWithoutCategory", "map_details", "reverse_geocoding", "slug",
   "ingestionDate"]

/-- The 39 destination columns of the staging table, in the declaration
order of `final_columns` in `process_data` (gcs_api.py lines 316-325 and
gcs_with_prefect_v2.py lines 160-169, which list the same columns). -/
def final_columns : List String :=
  ["id", "title", "slug", "estate", "transaction", "developmentId",
   "developmentTitle", "developmentUrl", "city", "province", "street",
   "mapRadius", "isExclusiveOffer", "isPrivateOwner", "isPromoted", "source",
   "agencyId", "agencyName", "agencySlug", "agencyType",
   "agencyBrandingVisible", "agencyHighlightedAds", "agencyImageUrl",
   "openDays", "totalPriceCurrency", "totalPriceValue",
   "pricePerSquareMeterCurrency", "pricePerSquareMeterValue",
   "areaInSquareMeters", "terrainAreaInSquareMeters", "roomsNumber",
   "hidePrice", "floorNumber", "dateCreated", "dateCreatedFirst",
   "shortDescription", "totalPossibleImages", "additionalInfo",
   "ingestionDate"]

/-- Python `final_record.get(key)`: the value stored under a key, or `None`
when the key is absent. -/
def lookupKeyD (rec : List (String × JValue)) (k : String) : JValue :=
  ((rec.find? (fun p => p.1 == k)).map (fun p => p.2)).getD JValue.null

/-- Python assignment `record[k] = f(record[k])` on an existing key: every
entry under that key has its value rewritten in place; entries under other
keys are untouched, and the key sequence is unchanged. -/
def setField (rec : List (String × JValue)) (k : String) (f : JValue → JValue) :
    List (String × JValue) :=
  rec.map (fun p => if p.1 = k then (p.1, f p.2) else p)

/-- The fix-up `if not isinstance(record.get(k), list): record[k] = []`
(transforms_core.py, lines 249-252). -/
def coerceListField (rec : List (String × JValue)) (k : String) :
    List (String × JValue) :=
  setField rec k (fun v => if v.isArr then v else JValue.arr [])

/-- The fix-up `if not isinstance(record.get(k), dict): record[k] = dflt`
(transforms_core.py, lines 253-256). -/
def coerceObjField (rec : List (String × JValue)) (k : String) (dflt : JValue) :
    List (String × JValue) :=
  setField rec k (fun v => if v.isObj then v else dflt)

/-- The all-null `other_features` dict installed when the computed value is
not a dict (transforms_core.py, line 254). -/
def defaultOtherFeatures : JValue :=
  JValue.obj [("lift", JValue.null), ("garage", JValue.null),
    ("heating", JValue.null), ("fireplace", JValue.null),
    ("balcony", JValue.null), ("suite", JValue.null),
    ("kitchen_equipment", JValue.null)]

/-- The closing stage of `process_single_listing_row` (transforms_core.py,
lines 240-257): the computed `final_record` is projected onto the fixed
`bq_schema_keys` — one value per declared key, `None` for keys the
extractors did not produce — and the list- and dict-typed columns are
coerced to their empty shapes when malformed. -/
def completeRecordOf (final_record : List (String × JValue)) :
    List (String × JValue) :=
  let complete := bq_schema_keys.map (fun k => (k, lookupKeyD final_record k))
  let complete := coerceListField complete "image_urls"
  let complete := coerceListField complete "features"
  let complete := coerceListField complete "featuresByCategory"
  let complete := coerceListField complete "featuresWithoutCategory"
  let complete := coerceObjField complete "other_features" defaultOtherFeatures
  let complete := coerceObjField complete "map_details" (JValue.obj [])
  coerceObjField complete "reverse_geocoding" (JValue.obj [])

/-- `process_single_listing_row(row_series, props_column_name)`
(transforms_core.py, lines 196-257), parameterized by the per-row
extraction pipeline `extract` that computes `final_record` (the chain of
`extract_basic_info`, `parse_characteristics`, location / contact / image /
amenity / passthrough extractors and the ingestion-date handling); the
closing projection is `completeRecordOf`.  Theorems below quantify over
every `extract`, hence cover the concrete pipeline. -/
def process_single_listing_row (extract : JValue → List (String × JValue))
    (row : JValue) : List (String × JValue) :=
  completeRecordOf (extract row)

/-- `transform_listings_data(input_df, props_column_name)`
(transforms_core.py, lines 259-276): each row is processed independently
and, mirroring the Python truthiness test `if processed_record:`, only
non-empty records are appended. -/
def transform_listings_data (extract : JValue → List (String × JValue))
    (rows : List JValue) : List (List (String × JValue)) :=
  (rows.map (process_single_listing_row extract)).filter
    (fun rec => !rec.isEmpty)

/-- One output row of `process_data`, parameterized by the per-column
coercion pipeline `extract` (the `astype` / `pd.to_numeric` / `safe_get`
column expressions of gcs_api.py lines 240-313): one value per declared
column, in the fixed `final_columns` order enforced at gcs_api.py line 326
and gcs_with_prefect_v2.py line 236. -/
def process_data_row (extract : String → JValue → JValue) (row : JValue) :
    List (String × JValue) :=
  final_columns.map (fun c => (c, extract c row))

/-- `process_data(df)` (gcs_api.py, lines 224-340) as a per-row map: the
column-wise pandas pipeline applies each column expression independently to
every row. -/
def process_data (extract : String → JValue → JValue) (rows : List JValue) :
    List (List (String × JValue)) :=
  rows.map (process_data_row extract)

/-- `process_data(df)` (gcs_with_prefect_v2.py, lines 155-244): identical
shape, with the explicit empty-input guard of lines 170-172 that returns an
empty frame with the expected columns. -/
def process_data_v2 (extract : String → JValue → JValue) (rows : List JValue) :
    List (List (String × JValue)) :=
  if rows.isEmpty then [] else rows.map (process_data_row extract)

/-- C5.  The transform applied to an empty input batch yields an empty
batch for all three variants — no exception (the functions are total), a
defined result, zero records — whatever the per-column or per-row
extraction pipeline is. -/
theorem transform_empty_input (extractCols : String → JValue → JValue)
    (extractRec : JValue → List (String × JValue)) :
    process_data extractCols [] = [] ∧
      process_data_v2 extractCols [] = [] ∧
      transform_listings_data extractRec [] = [] :=
  ⟨rfl, rfl, rfl⟩

/-- In-place value rewriting keeps the key sequence unchanged. -/
theorem setField_keys (rec : List (String × JValue)) (k : String)
    (f : JValue → JValue) :
    (setField rec k f).map Prod.fst = rec.map Prod.fst := by
  induction rec with
  | nil => rfl
  | cons p rest ih =>
    by_cases hp : p.1 = k <;> simp [setField, hp, ih] <;>
      simpa [setField] using ih

/-- C9.  Every canonical output record has exactly the declared key
sequence, in declaration order, whatever the raw record contained: the
listings projection always emits `bq_schema_keys` and the staging transform
always emits `final_columns`, for every extraction pipeline and every raw
row. -/
theorem canonical_record_fixed_columns
    (final_record : List (String × JValue))
    (extractRec : JValue → List (String × JValue))
    (extractCols : String → JValue → JValue) (row : JValue) :
    (completeRecordOf final_record).map Prod.fst = bq_schema_keys ∧
      (process_single_listing_row extractRec row).map Prod.fst = bq_schema_keys ∧
      (process_data_row extractCols row).map Prod.fst = final_columns := by
  have hbase : ∀ fr : List (String × JValue),
      (completeRecordOf fr).map Prod.fst = bq_schema_keys := by
    intro fr
    rw [completeRecordOf]
    rw [coerceObjField, setField_keys, coerceObjField, setField_keys,
      coerceObjField, setField_keys, coerceListField, setField_keys,
      coerceListField, setField_keys, coerceListField, setField_keys,
      coerceListField, setField_keys, List.map_map]
    exact List.map_id bq_schema_keys
  refine ⟨hbase final_record, hbase (extractRec row), ?_⟩
  rw [process_data_row, List.map_map]
  exact List.map_id final_columns

/-- The observable completion of a pipeline run, as far as the
no-eligible-source branch is concerned. -/
inductive RunOutcome where
  | proceeds (uri : String) : RunOutcome
  | gracefulExit : RunOutcome
  | exitWithCode (code : Nat) : RunOutcome
  | raisesError (kind : String) : RunOutcome
deriving DecidableEq, Repr

/-- The branch of `gcs_to_bigquery_etl_flow` on the result of the source
search (gcs_with_prefect_v2.py, lines 498-500): no file found means a
logged warning and a plain return — a graceful exit. -/
def flowOnLatestFile : Option String → RunOutcome
  | none => RunOutcome.gracefulExit
  | some f => RunOutcome.proceeds f

/-- The branch of the listings entry point on the result of the source
search (listings_gcs_daily_incremental_load/main.py, lines 547-549): no
file found means `exit(1)` — a non-zero completion status. -/
def listingsMainOnLatestFile : Option String → RunOutcome
  | none => RunOutcome.exitWithCode 1
  | some f => RunOutcome.proceeds f

/-- The branch of `get_latest_gcs_parquet_uri` on the blob scan
(parse_every_listing/utils.py, lines 133-135): no matching blob means a
raised `FileNotFoundError`. -/
def parseEveryListingOnLatestBlob : Option String → RunOutcome
  | none => RunOutcome.raisesError "FileNotFoundError"
  | some f => RunOutcome.proceeds f

/-- C8 counterexample.  With no eligible source object, the listings entry
point completes with exit status 1 and the parse-every-listing selector
raises an error: neither is the claimed graceful, non-failure ending. -/
theorem source_not_found_counterexample :
    listingsMainOnLatestFile none = RunOutcome.exitWithCode 1 ∧
      listingsMainOnLatestFile none ≠ RunOutcome.gracefulExit ∧
      parseEveryListingOnLatestBlob none = RunOutcome.raisesError "FileNotFoundError" ∧
      parseEveryListingOnLatestBlob none ≠ RunOutcome.gracefulExit := by
  exact ⟨rfl, by decide, rfl, by decide⟩

/-- C8 amended.  When no eligible source object exists, only the Prefect
flow variant ends gracefully with a nothing-to-do result; the listings
entry point exits with status 1 and the parse-every-listing selector raises
`FileNotFoundError`. -/
theorem source_not_found_amended :
    flowOnLatestFile none = RunOutcome.gracefulExit ∧
      listingsMainOnLatestFile none = RunOutcome.exitWithCode 1 ∧
      parseEveryListingOnLatestBlob none = RunOutcome.raisesError "FileNotFoundError" :=
  ⟨rfl, rfl, rfl⟩

/-- C2.  The existing-keys check returns exactly the intersection of the
batch's distinct normalized key tuples with the key tuples present in the
destination table: every returned key is the key of some batch row and is
present in the sink, and every key on both sides is returned.  The
computation stages only the batch's distinct key pairs into the short-lived
lookup relation and returns the inner join of that relation with the
destination on the full key tuple. -/
theorem check_existing_keys_exact_intersection
    (df : List BatchRow) (sink : List BqKey) (k : BqKey) :
    k ∈ check_existing_keys_in_bigquery df sink ↔
      k ∈ df.map normKey ∧ k ∈ sink :=
  mem_check_existing_keys df sink k


/-- Python equality between a raw `ingestionDate` cell and a stored
`datetime.date`: a date cell compares by day, while a timestamp object
never equals a date object, whatever the day. -/
def pdDateEqDate : PdDate → Nat → Bool
  | PdDate.dateOnly d, stored => d == stored
  | PdDate.timestamp _ _, _ => false

/-- A transformed listings row restricted to the columns the listings
deduplicator reads: the numeric `id` and the `ingestionDate`. -/
structure ListingRow where
  id : Int
  ingestionDate : PdDate
deriving DecidableEq, Repr

/-- An idempotency key of the listings table: an INT64 id and a DATE. -/
abbrev ListingKey := Int × Nat

/-- One comparison behind the membership test
`(row['id'], row['ingestionDate']) in existing_keys_set` of the listings
variant: the raw tuple equals a stored key only when the id agrees and the
raw ingestion date equals the stored date — no truncation is performed. -/
def listingKeyMatches (r : ListingRow) (k : ListingKey) : Bool :=
  r.id == k.1 && pdDateEqDate r.ingestionDate k.2

/-- `filter_out_duplicates(df, existing_keys)` from
listings_gcs_daily_incremental_load/main.py (lines 395-416): a row is kept
unless its raw `(id, ingestionDate)` tuple is in the existing-key set; this
variant has no date truncation and no empty-set shortcut.  This differs
from the gcs_api variant modelled by `filter_out_duplicates` above, which
truncates the ingestion date before comparing. -/
def filter_out_duplicates_listings
    (df : List ListingRow) (existing_keys : List ListingKey) : List ListingRow :=
  df.filter (fun r => !(existing_keys.any (fun k => listingKeyMatches r k)))

/-- C3 counterexample.  In the listings variant, the batch row with id 1
and a timestamp-valued ingestion date on day 1 has normalized key (1, 1),
which is a member of the existing-key set, yet the row is not removed: the
raw tuple comparison performs no truncation, so a timestamp never matches
the stored date and a member-key row survives the filter. -/
theorem filter_untruncated_counterexample :
    (ListingRow.mk 1 (PdDate.timestamp 1 5)).ingestionDate.toDate = 1 ∧
    ((1 : Int), (1 : Nat)) ∈ [((1 : Int), (1 : Nat))] ∧
    filter_out_duplicates_listings [ListingRow.mk 1 (PdDate.timestamp 1 5)]
        [((1 : Int), (1 : Nat))]
      = [ListingRow.mk 1 (PdDate.timestamp 1 5)] ∧
    filter_out_duplicates_listings [ListingRow.mk 1 (PdDate.timestamp 1 5)]
        [((1 : Int), (1 : Nat))] ≠ [] := by
  refine ⟨rfl, by decide, by decide, by decide⟩

/-- C3 amended.  The gcs_api variant of `filter_out_duplicates` returns
exactly the rows whose key tuple, after truncating the ingestion date to a
date, is not a member of the existing-key set — member-key rows removed,
absent-key rows kept, exact matching.  The listings variant instead
compares the raw `(id, ingestionDate)` tuple with no truncation: a row is
kept exactly when no stored key has the same id and a stored date equal to
the raw cell, so a timestamp-valued ingestion date never matches a stored
date.  (The prefect_v2 variant additionally drops rows whose key fields
are null, outside this model of non-null keys.) -/
theorem filter_out_duplicates_variants
    (df : List BatchRow) (existing_keys : List BqKey) (r : BatchRow)
    (ldf : List ListingRow) (lkeys : List ListingKey) (lr : ListingRow) :
    (r ∈ filter_out_duplicates df existing_keys ↔
      r ∈ df ∧ normKey r ∉ existing_keys) ∧
    (lr ∈ filter_out_duplicates_listings ldf lkeys ↔
      lr ∈ ldf ∧ ∀ k ∈ lkeys, listingKeyMatches lr k = false) := by
  refine ⟨mem_filter_out_duplicates df existing_keys r, ?_⟩
  rw [filter_out_duplicates_listings, List.mem_filter]
  constructor
  · rintro ⟨h1, h2⟩
    rw [Bool.not_eq_true', List.any_eq_false] at h2
    exact ⟨h1, fun k hk => Bool.not_eq_true _ ▸ h2 k hk⟩
  · rintro ⟨h1, h2⟩
    refine ⟨h1, ?_⟩
    rw [Bool.not_eq_true', List.any_eq_false]
    intro k hk
    rw [h2 k hk]
    exact Bool.false_ne_true
